import Mathlib

/-
  Shallow embedding of the QRPASS registration/attendance core.

  Sources embedded:
  - the mongoose Registration schema (status enum pending/attended, default
    pending, optional scannedAt, unique index on (userId, eventId));
  - the Express routes for POST /api/registrations,
    DELETE /api/registrations/:id and POST /api/registrations/scan;
  - the serverless handler's corresponding branches.

  Machine state is the registration collection plus the (read-only here)
  event collection and the notification collection; mongoose document ids
  are modelled as a fresh-Nat counter, Date.now() as a Nat supplied per call.
-/

namespace QRPass

/-- `status` field of the Registration schema: enum ["pending", "attended"]. -/
inductive RegStatus where
  | pending
  | attended
deriving DecidableEq, Repr

/-- `additionalDetails` subdocument of the Registration schema. -/
structure AdditionalDetails where
  dietary : Option String
  tshirtSize : Option String
  emergencyContact : Option String
  organization : Option String
deriving DecidableEq, Repr

/-- A Registration document (fields of the mongoose schema that the
registration/scan/cancel logic reads or writes). -/
structure Registration where
  id : Nat
  userId : String
  eventId : String
  status : RegStatus
  registeredAt : Nat
  scannedAt : Option Nat
  qrCodeData : String
  additionalDetails : Option AdditionalDetails
deriving DecidableEq, Repr

/-- An Event document (the fields the registration logic reads: its id,
its optional numeric capacity, and the title used in the handler's
notification message). -/
structure Event where
  id : String
  title : String
  capacity : Option Nat
deriving DecidableEq, Repr

/-- A Notification document as created by the serverless register branch. -/
structure Notification where
  userId : String
  title : String
  message : String
deriving DecidableEq, Repr

/-- The shared persistent state: the event, registration and notification
collections, plus a counter supplying fresh document ids. -/
structure St where
  events : List Event
  regs : List Registration
  notifs : List Notification
  nextId : Nat
deriving DecidableEq, Repr

/-! ## Credential codec

The code mints `JSON.stringify({uid, eid, rid: Date.now().toString()})`
(Express) or `JSON.stringify({uid, eid, t: Date.now()})` (handler), and the
scan route runs `JSON.parse(qrData)` inside try/catch and then reads
`parsed.uid` and `parsed.eid`.  The decoder below embeds that step
restricted to flat objects whose values are string or digit-number
literals with string `uid` and `eid` fields — the only shapes the codec
mints — and it is exact on that domain (escape sequences are mapped
`\c ↦ c`, which is exact for the `\"` and `\\` escapes JSON.stringify
produces here).  Inputs outside this domain that `JSON.parse` nevertheless
accepts (`null`, numbers, objects lacking string `uid`/`eid`) are NOT
modelled: the decoder returns `none` there, whereas the real route
continues — property access on a parsed `null` throws a TypeError that is
answered 500 by the route's generic catch, and missing `uid`/`eid` fields
reach the `findOne` filter as `undefined`, which Mongoose strips, so the
query can match an unrelated registration.  The theorems below therefore
invoke the decoder only where it is exact: on decode successes of
minted-shaped tokens, and on behaviour that does not depend on how a
decode failure is classified. -/

/-- Skip JSON whitespace. -/
def skipWs : List Char → List Char
  | c :: rest => if c = ' ' ∨ c = '\t' ∨ c = '\n' ∨ c = '\r' then skipWs rest else c :: rest
  | [] => []

/-- Body of a JSON string literal after the opening quote; `acc` is the
reversed prefix already read. -/
def parseStringBody : List Char → List Char → Option (String × List Char)
  | [], _ => none
  | '\\' :: c :: rest, acc => parseStringBody rest (c :: acc)
  | '\\' :: [], _ => none
  | '"' :: rest, acc => some (String.mk acc.reverse, rest)
  | c :: rest, acc => parseStringBody rest (c :: acc)

/-- A JSON string literal. -/
def parseJString (s : List Char) : Option (String × List Char) :=
  match s with
  | '"' :: rest => parseStringBody rest []
  | _ => none

/-- A JSON number literal (digit runs; the codec only mints `Date.now()`). -/
def parseJNumber (s : List Char) : Option (String × List Char) :=
  let ds := s.takeWhile (fun c => c.isDigit)
  if ds.isEmpty then none else some (String.mk ds, s.drop ds.length)

/-- A scalar JSON value as it occurs in minted tokens. -/
inductive JVal where
  | str (s : String)
  | num (s : String)
deriving DecidableEq, Repr

/-- A JSON value: string or number literal. -/
def parseJVal (s : List Char) : Option (JVal × List Char) :=
  match parseJString s with
  | some (v, rest) => some (JVal.str v, rest)
  | none =>
    match parseJNumber s with
    | some (v, rest) => some (JVal.num v, rest)
    | none => none

/-- Members of a JSON object after the opening brace (nonempty case);
`fuel` bounds the recursion and is supplied ≥ the input length. -/
def parseMembers : Nat → List Char → Option (List (String × JVal) × List Char)
  | 0, _ => none
  | fuel + 1, s =>
    match parseJString (skipWs s) with
    | none => none
    | some (k, rest) =>
      match skipWs rest with
      | ':' :: rest2 =>
        match parseJVal (skipWs rest2) with
        | none => none
        | some (v, rest3) =>
          match skipWs rest3 with
          | ',' :: rest4 =>
            match parseMembers fuel rest4 with
            | some (ms, rest5) => some ((k, v) :: ms, rest5)
            | none => none
          | '\x7d' :: rest4 => some ([(k, v)], rest4)
          | _ => none
      | _ => none

/-- `JSON.parse` of a flat object of scalar members. -/
def jsonParseObj (s : String) : Option (List (String × JVal)) :=
  match skipWs s.data with
  | '\x7b' :: rest =>
    match parseMembers (rest.length + 1) (skipWs rest) with
    | some (ms, rest2) => if skipWs rest2 = [] then some ms else none
    | none =>
      match skipWs rest with
      | '\x7d' :: rest2 => if skipWs rest2 = [] then some [] else none
      | _ => none
  | _ => none

/-- Property access on the parse result; a later duplicate key wins, as in
`JSON.parse`. -/
def getField : List (String × JVal) → String → Option JVal
  | [], _ => none
  | (k, v) :: rest, key =>
    match getField rest key with
    | some v2 => some v2
    | none => if k = key then some v else none

/-- The `{userRef, eventRef}` pair the scan route extracts from a token. -/
structure QrPayload where
  uid : String
  eid : String
deriving DecidableEq, Repr

/-- The scan route's decode step: `JSON.parse(qrData)` inside try/catch,
then `parsed.uid` / `parsed.eid`; failure is `none`. -/
def qrDecode (s : String) : Option QrPayload :=
  match jsonParseObj s with
  | none => none
  | some ms =>
    match getField ms "uid", getField ms "eid" with
    | some (JVal.str u), some (JVal.str e) => some ⟨u, e⟩
    | _, _ => none

/-- `JSON.stringify` string escaping (quote and backslash; the ids and
timestamps the codec emits contain neither). -/
def jsonEscape (s : String) : String :=
  String.mk (s.data.foldr (fun c acc => if c = '"' ∨ c = '\\' then '\\' :: c :: acc else c :: acc) [])

/-- Express route's credential:
`JSON.stringify({uid, eid, rid: Date.now().toString()})`. -/
def mintExpress (uid eid : String) (now : Nat) : String :=
  "\x7b\"uid\":\"" ++ jsonEscape uid ++ "\",\"eid\":\"" ++ jsonEscape eid
    ++ "\",\"rid\":\"" ++ toString now ++ "\"\x7d"

/-- Serverless handler's credential:
`JSON.stringify({uid, eid, t: Date.now()})` (the nonce is an unquoted
number under the key `t`). -/
def mintHandler (uid eid : String) (now : Nat) : String :=
  "\x7b\"uid\":\"" ++ jsonEscape uid ++ "\",\"eid\":\"" ++ jsonEscape eid
    ++ "\",\"t\":" ++ toString now ++ "\x7d"

/-! ## Collection queries -/

/-- `Registration.findOne({userId, eventId})`: first match in the
collection. -/
def findReg (regs : List Registration) (uid eid : String) : Option Registration :=
  regs.find? (fun r => r.userId == uid && r.eventId == eid)

/-- `Event.findById(eventId)`. -/
def getEvent (σ : St) (eid : String) : Option Event :=
  σ.events.find? (fun e => e.id == eid)

/-- `Registration.countDocuments({eventId})` over a registration list. -/
def countForL (regs : List Registration) (eid : String) : Nat :=
  (regs.filter (fun r => r.eventId == eid)).length

/-- `Registration.countDocuments({eventId})` against the state. -/
def countFor (σ : St) (eid : String) : Nat :=
  countForL σ.regs eid

/-- The capacity guard `if (event.capacity) { if (count >= event.capacity)
reject }`: JS truthiness makes an absent or zero capacity skip the check. -/
def capFull (capacity : Option Nat) (count : Nat) : Bool :=
  match capacity with
  | none => false
  | some c => if c = 0 then false else decide (count ≥ c)

/-! ## Operations -/

/-- Outcome of POST /api/registrations (201 created; 400 already
registered; 404 event not found; 400 full capacity). -/
inductive RegisterResult where
  | created (r : Registration)
  | alreadyRegistered
  | eventNotFound
  | capacityExceeded
deriving DecidableEq, Repr

/-- The Registration document `Registration.create` builds: status defaults
to pending, `registeredAt` to now, `scannedAt` unset. -/
def mkRegistration (id : Nat) (uid eid : String) (now : Nat) (qr : String)
    (details : Option AdditionalDetails) : Registration :=
  { id := id, userId := uid, eventId := eid, status := RegStatus.pending,
    registeredAt := now, scannedAt := none, qrCodeData := qr,
    additionalDetails := details }

/-- Express POST /api/registrations: duplicate check, then event lookup,
then the truthiness-guarded capacity check, then create. -/
def registerExpress (σ : St) (uid eid : String) (details : Option AdditionalDetails)
    (now : Nat) : RegisterResult × St :=
  match findReg σ.regs uid eid with
  | some _ => (RegisterResult.alreadyRegistered, σ)
  | none =>
    match getEvent σ eid with
    | none => (RegisterResult.eventNotFound, σ)
    | some ev =>
      if capFull ev.capacity (countFor σ eid) then (RegisterResult.capacityExceeded, σ)
      else
        let r := mkRegistration σ.nextId uid eid now (mintExpress uid eid now) details
        (RegisterResult.created r,
         { σ with regs := σ.regs ++ [r], nextId := σ.nextId + 1 })

/-- Serverless POST /api/registrations: same checks in the same order; the
created credential uses the `t` nonce key and a Notification document is
also created. -/
def registerHandler (σ : St) (uid eid : String) (details : Option AdditionalDetails)
    (now : Nat) : RegisterResult × St :=
  match findReg σ.regs uid eid with
  | some _ => (RegisterResult.alreadyRegistered, σ)
  | none =>
    match getEvent σ eid with
    | none => (RegisterResult.eventNotFound, σ)
    | some ev =>
      if capFull ev.capacity (countFor σ eid) then (RegisterResult.capacityExceeded, σ)
      else
        let r := mkRegistration σ.nextId uid eid now (mintHandler uid eid now) details
        (RegisterResult.created r,
         { σ with regs := σ.regs ++ [r],
                  notifs := σ.notifs ++
                    [{ userId := uid, title := "Registration Confirmed",
                       message := "You have successfully registered for " ++ ev.title }],
                  nextId := σ.nextId + 1 })

/-- Outcome of DELETE /api/registrations/:id (200 cancelled; 404 not
found; 403 not authorized — the 403 arm exists only in the handler). -/
inductive CancelResult where
  | ok
  | notFound
  | notAuthorized
deriving DecidableEq, Repr

/-- Express DELETE /api/registrations/:id:
`Registration.findOne({_id, userId: req.user._id})` — the query itself
requires the requester to be the owner — then `deleteOne()`. -/
def cancelExpress (σ : St) (rid : Nat) (requester : String) : CancelResult × St :=
  match σ.regs.find? (fun r => r.id == rid && r.userId == requester) with
  | none => (CancelResult.notFound, σ)
  | some _ =>
    (CancelResult.ok, { σ with regs := σ.regs.filter (fun x => x.id != rid) })

/-- Serverless DELETE /api/registrations/:id: `findById`, then reject 403
unless the requester owns the registration or has the admin role, then
`deleteOne()`. -/
def cancelHandler (σ : St) (rid : Nat) (requester : String) (isAdmin : Bool) :
    CancelResult × St :=
  match σ.regs.find? (fun r => r.id == rid) with
  | none => (CancelResult.notFound, σ)
  | some r =>
    if r.userId != requester && !isAdmin then (CancelResult.notAuthorized, σ)
    else (CancelResult.ok, { σ with regs := σ.regs.filter (fun x => x.id != rid) })

/-- Outcome of POST /api/registrations/scan. -/
inductive ScanResult where
  | invalidFormat
  | notFound
  | alreadyScanned (r : Registration)
  | granted (r : Registration)
deriving DecidableEq, Repr

/-- `registration.status = "attended"; registration.scannedAt = new Date()`. -/
def attendReg (r : Registration) (now : Nat) : Registration :=
  { r with status := RegStatus.attended, scannedAt := some now }

/-- `registration.save()`: replace the document with the matching id. -/
def updById (rid : Nat) (r2 : Registration) (x : Registration) : Registration :=
  if x.id == rid then r2 else x

/-- Express POST /api/registrations/scan: decode, find by (uid, eid),
report AlreadyScanned without mutation if attended, else transition to
attended stamping scannedAt. -/
def scanExpress (σ : St) (qrData : String) (now : Nat) : ScanResult × St :=
  match qrDecode qrData with
  | none => (ScanResult.invalidFormat, σ)
  | some p =>
    match findReg σ.regs p.uid p.eid with
    | none => (ScanResult.notFound, σ)
    | some r =>
      if r.status = RegStatus.attended then (ScanResult.alreadyScanned r, σ)
      else
        (ScanResult.granted (attendReg r now),
         { σ with regs := σ.regs.map (updById r.id (attendReg r now)) })

/-- Serverless POST /api/registrations/scan: line-for-line the same logic
as the Express route. -/
def scanHandler (σ : St) (qrData : String) (now : Nat) : ScanResult × St :=
  match qrDecode qrData with
  | none => (ScanResult.invalidFormat, σ)
  | some p =>
    match findReg σ.regs p.uid p.eid with
    | none => (ScanResult.notFound, σ)
    | some r =>
      if r.status = RegStatus.attended then (ScanResult.alreadyScanned r, σ)
      else
        (ScanResult.granted (attendReg r now),
         { σ with regs := σ.regs.map (updById r.id (attendReg r now)) })

/-! ## Transition system

The claims quantify over sequences of register / cancel / scan operations
issued through either backend; `Step` is that transition relation and
`Reachable` its closure from an empty registration collection over a fixed
event catalogue. -/

/-- One registration-collection operation through either backend. -/
inductive Step : St → St → Prop where
  | registerE (σ : St) (uid eid : String) (d : Option AdditionalDetails) (now : Nat) :
      Step σ (registerExpress σ uid eid d now).2
  | registerH (σ : St) (uid eid : String) (d : Option AdditionalDetails) (now : Nat) :
      Step σ (registerHandler σ uid eid d now).2
  | cancelE (σ : St) (rid : Nat) (u : String) :
      Step σ (cancelExpress σ rid u).2
  | cancelH (σ : St) (rid : Nat) (u : String) (adm : Bool) :
      Step σ (cancelHandler σ rid u adm).2
  | scanE (σ : St) (q : String) (now : Nat) :
      Step σ (scanExpress σ q now).2
  | scanH (σ : St) (q : String) (now : Nat) :
      Step σ (scanHandler σ q now).2

/-- Initial state: given events, no registrations, no notifications. -/
def initSt (events : List Event) : St :=
  { events := events, regs := [], notifs := [], nextId := 0 }

/-- States reachable by register/cancel/scan operations from the initial
state over a fixed event catalogue. -/
inductive Reachable (events : List Event) : St → Prop where
  | init : Reachable events (initSt events)
  | step {σ σ2 : St} : Reachable events σ → Step σ σ2 → Reachable events σ2

/-! ## Characterization lemmas for the operations -/

/-- Case analysis of the Express register route. -/
lemma registerExpress_spec (σ : St) (u e : String) (d : Option AdditionalDetails) (n : Nat) :
    (registerExpress σ u e d n = (RegisterResult.alreadyRegistered, σ) ∧
       (findReg σ.regs u e).isSome = true) ∨
    (registerExpress σ u e d n = (RegisterResult.eventNotFound, σ) ∧
       findReg σ.regs u e = none ∧ getEvent σ e = none) ∨
    (registerExpress σ u e d n = (RegisterResult.capacityExceeded, σ) ∧
       findReg σ.regs u e = none ∧
       ∃ ev, getEvent σ e = some ev ∧ capFull ev.capacity (countFor σ e) = true) ∨
    (findReg σ.regs u e = none ∧
       ∃ ev, getEvent σ e = some ev ∧ capFull ev.capacity (countFor σ e) = false ∧
       registerExpress σ u e d n =
         (RegisterResult.created (mkRegistration σ.nextId u e n (mintExpress u e n) d),
          { σ with regs := σ.regs ++ [mkRegistration σ.nextId u e n (mintExpress u e n) d],
                   nextId := σ.nextId + 1 })) := by
  unfold registerExpress
  cases hf : findReg σ.regs u e with
  | some r => exact Or.inl ⟨rfl, by simp [hf]⟩
  | none =>
    cases he : getEvent σ e with
    | none => exact Or.inr (Or.inl ⟨rfl, rfl, rfl⟩)
    | some ev =>
      by_cases hc : capFull ev.capacity (countFor σ e) = true
      · exact Or.inr (Or.inr (Or.inl ⟨by simp [hc], rfl, ev, rfl, hc⟩))
      · exact Or.inr (Or.inr (Or.inr ⟨rfl, ev, rfl, by simpa using hc, by
          simp [Bool.not_eq_true] at hc
          simp [hc]⟩))

/-- Case analysis of the serverless register branch. -/
lemma registerHandler_spec (σ : St) (u e : String) (d : Option AdditionalDetails) (n : Nat) :
    (registerHandler σ u e d n = (RegisterResult.alreadyRegistered, σ) ∧
       (findReg σ.regs u e).isSome = true) ∨
    (registerHandler σ u e d n = (RegisterResult.eventNotFound, σ) ∧
       findReg σ.regs u e = none ∧ getEvent σ e = none) ∨
    (registerHandler σ u e d n = (RegisterResult.capacityExceeded, σ) ∧
       findReg σ.regs u e = none ∧
       ∃ ev, getEvent σ e = some ev ∧ capFull ev.capacity (countFor σ e) = true) ∨
    (findReg σ.regs u e = none ∧
       ∃ ev, getEvent σ e = some ev ∧ capFull ev.capacity (countFor σ e) = false ∧
       registerHandler σ u e d n =
         (RegisterResult.created (mkRegistration σ.nextId u e n (mintHandler u e n) d),
          { σ with regs := σ.regs ++ [mkRegistration σ.nextId u e n (mintHandler u e n) d],
                   notifs := σ.notifs ++
                     [{ userId := u, title := "Registration Confirmed",
                        message := "You have successfully registered for " ++ ev.title }],
                   nextId := σ.nextId + 1 })) := by
  unfold registerHandler
  cases hf : findReg σ.regs u e with
  | some r => exact Or.inl ⟨rfl, by simp [hf]⟩
  | none =>
    cases he : getEvent σ e with
    | none => exact Or.inr (Or.inl ⟨rfl, rfl, rfl⟩)
    | some ev =>
      by_cases hc : capFull ev.capacity (countFor σ e) = true
      · exact Or.inr (Or.inr (Or.inl ⟨by simp [hc], rfl, ev, rfl, hc⟩))
      · exact Or.inr (Or.inr (Or.inr ⟨rfl, ev, rfl, by simpa using hc, by
          simp [Bool.not_eq_true] at hc
          simp [hc]⟩))

/-- Case analysis of the Express cancel route. -/
lemma cancelExpress_spec (σ : St) (rid : Nat) (u : String) :
    (cancelExpress σ rid u = (CancelResult.notFound, σ) ∧
       σ.regs.find? (fun r => r.id == rid && r.userId == u) = none) ∨
    (∃ r, σ.regs.find? (fun x => x.id == rid && x.userId == u) = some r ∧
       cancelExpress σ rid u =
         (CancelResult.ok, { σ with regs := σ.regs.filter (fun x => x.id != rid) })) := by
  cases hf : σ.regs.find? (fun r => r.id == rid && r.userId == u) with
  | none => exact Or.inl ⟨by simp [cancelExpress, hf], by simp [hf]⟩
  | some r => exact Or.inr ⟨r, by simp [hf], by simp [cancelExpress, hf]⟩

/-- Case analysis of the serverless cancel branch. -/
lemma cancelHandler_spec (σ : St) (rid : Nat) (u : String) (adm : Bool) :
    (cancelHandler σ rid u adm = (CancelResult.notFound, σ) ∧
       σ.regs.find? (fun r => r.id == rid) = none) ∨
    (∃ r, σ.regs.find? (fun x => x.id == rid) = some r ∧
       (r.userId != u && !adm) = true ∧
       cancelHandler σ rid u adm = (CancelResult.notAuthorized, σ)) ∨
    (∃ r, σ.regs.find? (fun x => x.id == rid) = some r ∧
       (r.userId = u ∨ adm = true) ∧
       cancelHandler σ rid u adm =
         (CancelResult.ok, { σ with regs := σ.regs.filter (fun x => x.id != rid) })) := by
  cases hf : σ.regs.find? (fun r => r.id == rid) with
  | none => exact Or.inl ⟨by simp [cancelHandler, hf], by simp [hf]⟩
  | some r =>
    by_cases ha : (r.userId != u && !adm) = true
    · exact Or.inr (Or.inl ⟨r, by simp [hf], ha, by simp [cancelHandler, hf, ha]⟩)
    · refine Or.inr (Or.inr ⟨r, by simp [hf], ?_, by simp [cancelHandler, hf, ha]⟩)
      by_cases hu : r.userId = u
      · exact Or.inl hu
      · refine Or.inr ?_
        rcases Bool.eq_false_or_eq_true adm with h | h
        · exact h
        · exact absurd (by simp [bne_iff_ne, hu, h]) ha

/-- Case analysis of the Express scan route. -/
lemma scanExpress_spec (σ : St) (q : String) (n : Nat) :
    (qrDecode q = none ∧ scanExpress σ q n = (ScanResult.invalidFormat, σ)) ∨
    (∃ p, qrDecode q = some p ∧ findReg σ.regs p.uid p.eid = none ∧
       scanExpress σ q n = (ScanResult.notFound, σ)) ∨
    (∃ p r, qrDecode q = some p ∧ findReg σ.regs p.uid p.eid = some r ∧
       r.status = RegStatus.attended ∧
       scanExpress σ q n = (ScanResult.alreadyScanned r, σ)) ∨
    (∃ p r, qrDecode q = some p ∧ findReg σ.regs p.uid p.eid = some r ∧
       r.status = RegStatus.pending ∧
       scanExpress σ q n = (ScanResult.granted (attendReg r n),
         { σ with regs := σ.regs.map (updById r.id (attendReg r n)) })) := by
  cases hd : qrDecode q with
  | none => exact Or.inl ⟨by simp [hd], by simp [scanExpress, hd]⟩
  | some p =>
    cases hf : findReg σ.regs p.uid p.eid with
    | none =>
      exact Or.inr (Or.inl ⟨p, by simp [hd], hf, by simp [scanExpress, hd, hf]⟩)
    | some r =>
      by_cases hs : r.status = RegStatus.attended
      · exact Or.inr (Or.inr (Or.inl ⟨p, r, by simp [hd], hf, hs,
          by simp [scanExpress, hd, hf, hs]⟩))
      · have hp : r.status = RegStatus.pending := by
          cases h : r.status
          · rfl
          · exact absurd h hs
        exact Or.inr (Or.inr (Or.inr ⟨p, r, by simp [hd], hf, hp,
          by simp [scanExpress, hd, hf, hs]⟩))

/-- The two backends' scan branches are the same function. -/
lemma scan_eq (σ : St) (q : String) (n : Nat) : scanExpress σ q n = scanHandler σ q n := rfl

/-! ## List helper lemmas -/

lemma pairwise_map_of_mem {α : Type} (l : List α) (f : α → α) (R : α → α → Prop)
    (h : ∀ x ∈ l, ∀ y ∈ l, R x y → R (f x) (f y)) :
    l.Pairwise R → (l.map f).Pairwise R := by
  induction l with
  | nil => intro _; simp
  | cons a t ih =>
    intro hp
    rcases List.pairwise_cons.mp hp with ⟨ha, ht⟩
    simp only [List.map_cons]
    refine List.pairwise_cons.mpr ⟨?_, ih
      (fun x hx y hy => h x (List.mem_cons_of_mem _ hx) y (List.mem_cons_of_mem _ hy)) ht⟩
    intro b hb
    rcases List.mem_map.mp hb with ⟨y, hy, rfl⟩
    exact h a (List.mem_cons_self _ _) y (List.mem_cons_of_mem _ hy) (ha y hy)

lemma eq_of_pairwise_id (l : List Registration)
    (h : l.Pairwise (fun a b => a.id ≠ b.id))
    (x y : Registration) (hx : x ∈ l) (hy : y ∈ l) (hid : x.id = y.id) : x = y := by
  induction l with
  | nil => cases hx
  | cons a t ih =>
    rcases List.pairwise_cons.mp h with ⟨ha, ht⟩
    rcases List.mem_cons.mp hx with rfl | hx2
    · rcases List.mem_cons.mp hy with rfl | hy2
      · rfl
      · exact absurd hid (ha y hy2)
    · rcases List.mem_cons.mp hy with rfl | hy2
      · exact absurd hid.symm (ha x hx2)
      · exact ih ht hx2 hy2

lemma length_filter_le_one_of_pairwise {α : Type} {l : List α} {R : α → α → Prop}
    (p : α → Bool) (hp : l.Pairwise R)
    (h : ∀ a b, p a = true → p b = true → ¬ R a b) :
    (l.filter p).length ≤ 1 := by
  induction hp with
  | nil => simp
  | @cons a t ha _ ih =>
    by_cases hpa : p a = true
    · have hnil : t.filter p = [] := by
        refine List.eq_nil_iff_forall_not_mem.mpr ?_
        intro b hb
        rcases List.mem_filter.mp hb with ⟨hbt, hpb⟩
        exact h a b hpa hpb (ha b hbt)
      simp [List.filter_cons, hpa, hnil]
    · simpa [List.filter_cons, hpa] using ih

lemma countForL_append (l1 l2 : List Registration) (e : String) :
    countForL (l1 ++ l2) e = countForL l1 e + countForL l2 e := by
  simp [countForL, List.filter_append]

lemma countForL_filter_le (l : List Registration) (q : Registration → Bool) (e : String) :
    countForL (l.filter q) e ≤ countForL l e :=
  (List.Sublist.filter _ (List.filter_sublist l)).length_le

lemma countForL_map_eq (l : List Registration) (f : Registration → Registration)
    (hf : ∀ x ∈ l, (f x).eventId = x.eventId) (e : String) :
    countForL (l.map f) e = countForL l e := by
  induction l with
  | nil => rfl
  | cons a t ih =>
    have ha := hf a (List.mem_cons_self a t)
    have ih2 := ih (fun x hx => hf x (List.mem_cons_of_mem _ hx))
    by_cases h : (a.eventId == e) = true
    · simp [countForL, List.filter_cons, ha, h] at ih2 ⊢
      exact ih2
    · simp [countForL, List.filter_cons, ha, h] at ih2 ⊢
      exact ih2

lemma countForL_remove_lt (l : List Registration) (r : Registration) (hm : r ∈ l)
    (i : Nat) (hi : r.id = i) (e : String) (he : r.eventId = e) :
    countForL (l.filter (fun x => x.id != i)) e < countForL l e := by
  induction l with
  | nil => cases hm
  | cons a t ih =>
    by_cases har : r = a
    · subst har
      have h1 : (r.id != i) = false := by simp [hi]
      have h2 : (r.eventId == e) = true := by simp [he]
      have hle := countForL_filter_le t (fun x => x.id != i) e
      unfold countForL at hle ⊢
      simp only [List.filter_cons, h1, h2, if_true, if_false, Bool.false_eq_true,
        List.length_cons]
      omega
    · have hm2 : r ∈ t := by
        rcases List.mem_cons.mp hm with h | h
        · exact absurd h har
        · exact h
      have ihlt := ih hm2
      unfold countForL at ihlt ⊢
      by_cases h1 : (a.id != i) = true
      · by_cases h2 : (a.eventId == e) = true
        · simp only [List.filter_cons, h1, h2, if_true, List.length_cons]
          omega
        · simp only [List.filter_cons, h1, h2, if_true, Bool.false_eq_true, if_false]
          exact ihlt
      · have h1f : (a.id != i) = false := by simpa using h1
        by_cases h2 : (a.eventId == e) = true
        · simp only [List.filter_cons, h1f, h2, if_true, Bool.false_eq_true, if_false,
            List.length_cons]
          omega
        · simp only [List.filter_cons, h1f, h2, Bool.false_eq_true, if_false]
          exact ihlt

/-- `findReg` misses exactly when no row carries the pair. -/
lemma findReg_none_iff (regs : List Registration) (u e : String) :
    findReg regs u e = none ↔ ∀ r ∈ regs, ¬(r.userId = u ∧ r.eventId = e) := by
  simp [findReg, List.find?_eq_none]

/-- A false capacity guard at a positive capacity means the count is
strictly below it. -/
lemma capFull_false_lt (cap : Option Nat) (cnt : Nat) (h : capFull cap cnt = false) :
    ∀ c, cap = some c → 0 < c → cnt < c := by
  intro c hc hpos
  subst hc
  have hne : ¬c = 0 := Nat.pos_iff_ne_zero.mp hpos
  simp [capFull, hne] at h
  omega

/-! ## The state invariant -/

/-- No two rows share the (userId, eventId) pair: the content of the
schema's unique index. -/
def PairDistinct (a b : Registration) : Prop :=
  ¬(a.userId = b.userId ∧ a.eventId = b.eventId)

/-- Distinct document ids. -/
def IdDistinct (a b : Registration) : Prop := a.id ≠ b.id

/-- Invariant maintained by every register/cancel/scan operation of either
backend. -/
structure Inv (σ : St) : Prop where
  uniq : σ.regs.Pairwise PairDistinct
  idLt : ∀ r ∈ σ.regs, r.id < σ.nextId
  idNe : σ.regs.Pairwise IdDistinct
  scanIff : ∀ r ∈ σ.regs, r.scannedAt.isSome = true ↔ r.status = RegStatus.attended
  capOk : ∀ eid ev c, getEvent σ eid = some ev → ev.capacity = some c → 0 < c →
            countFor σ eid ≤ c
  evEx : ∀ r ∈ σ.regs, (getEvent σ r.eventId).isSome = true

lemma inv_init (events : List Event) : Inv (initSt events) := by
  refine ⟨?_, ?_, ?_, ?_, ?_, ?_⟩ <;> simp [initSt, countFor, countForL]

/-- The successful-creation branch of either register implementation
preserves the invariant. -/
lemma inv_create (σ : St) (u e : String) (n : Nat) (qr : String)
    (d : Option AdditionalDetails) (notifs2 : List Notification) (hI : Inv σ)
    (hf : findReg σ.regs u e = none)
    (hev : (getEvent σ e).isSome = true)
    (hcap : ∀ ev c, getEvent σ e = some ev → ev.capacity = some c → 0 < c →
              countFor σ e < c) :
    Inv { σ with regs := σ.regs ++ [mkRegistration σ.nextId u e n qr d],
                 notifs := notifs2, nextId := σ.nextId + 1 } := by
  have hfr := (findReg_none_iff σ.regs u e).mp hf
  constructor
  · refine List.pairwise_append.mpr ⟨hI.uniq, by simp, ?_⟩
    intro a ha b hb
    rcases List.mem_singleton.mp hb with rfl
    intro hpair
    exact hfr a ha ⟨hpair.1, hpair.2⟩
  · intro r hr
    rcases List.mem_append.mp hr with hr2 | hr2
    · exact Nat.lt_succ_of_lt (hI.idLt r hr2)
    · rcases List.mem_singleton.mp hr2 with rfl
      exact Nat.lt_succ_self _
  · refine List.pairwise_append.mpr ⟨hI.idNe, by simp, ?_⟩
    intro a ha b hb
    rcases List.mem_singleton.mp hb with rfl
    exact Nat.ne_of_lt (hI.idLt a ha)
  · intro r hr
    rcases List.mem_append.mp hr with hr2 | hr2
    · exact hI.scanIff r hr2
    · rcases List.mem_singleton.mp hr2 with rfl
      simp [mkRegistration]
  · intro eid ev c hgv hcv hpos
    replace hgv : getEvent σ eid = some ev := hgv
    by_cases heq : e = eid
    · subst heq
      have hlt := hcap ev c hgv hcv hpos
      have : countForL (σ.regs ++ [mkRegistration σ.nextId u e n qr d]) e
          = countFor σ e + 1 := by
        rw [countForL_append]
        simp [countForL, countFor, mkRegistration]
      simp only [countFor] at *
      omega
    · have : countForL (σ.regs ++ [mkRegistration σ.nextId u e n qr d]) eid
          = countFor σ eid := by
        rw [countForL_append]
        simp [countForL, countFor, mkRegistration, heq]
      simp only [countFor] at *
      rw [this]
      exact hI.capOk eid ev c hgv hcv hpos
  · intro r hr
    rcases List.mem_append.mp hr with hr2 | hr2
    · exact hI.evEx r hr2
    · rcases List.mem_singleton.mp hr2 with rfl
      simpa [mkRegistration] using hev

/-- Deleting rows preserves the invariant. -/
lemma inv_filter (σ : St) (hI : Inv σ) (q : Registration → Bool) :
    Inv { σ with regs := σ.regs.filter q } := by
  constructor
  · exact List.Pairwise.sublist (List.filter_sublist _) hI.uniq
  · intro r hr
    exact hI.idLt r (List.mem_of_mem_filter hr)
  · exact List.Pairwise.sublist (List.filter_sublist _) hI.idNe
  · intro r hr
    exact hI.scanIff r (List.mem_of_mem_filter hr)
  · intro eid ev c hgv hcv hpos
    exact le_trans (countForL_filter_le σ.regs q eid) (hI.capOk eid ev c hgv hcv hpos)
  · intro r hr
    exact hI.evEx r (List.mem_of_mem_filter hr)

/-- The scan transition (conditional write of the attended status on one
row) preserves the invariant. -/
lemma inv_scanUpdate (σ : St) (hI : Inv σ) (r : Registration) (n : Nat)
    (hr : r ∈ σ.regs) :
    Inv { σ with regs := σ.regs.map (updById r.id (attendReg r n)) } := by
  have hpres : ∀ x ∈ σ.regs,
      (updById r.id (attendReg r n) x).userId = x.userId ∧
      (updById r.id (attendReg r n) x).eventId = x.eventId ∧
      (updById r.id (attendReg r n) x).id = x.id := by
    intro x hx
    unfold updById
    by_cases h : (x.id == r.id) = true
    · have hxr : x = r := eq_of_pairwise_id _ hI.idNe x r hx hr (by simpa using h)
      subst hxr
      simp [attendReg]
    · simp [h]
  constructor
  · refine pairwise_map_of_mem _ _ _ ?_ hI.uniq
    intro x hx y hy hxy
    have px := hpres x hx
    have py := hpres y hy
    unfold PairDistinct at hxy ⊢
    rw [px.1, px.2.1, py.1, py.2.1]
    exact hxy
  · intro z hz
    rcases List.mem_map.mp hz with ⟨x, hx, rfl⟩
    have px := hpres x hx
    rw [px.2.2]
    exact hI.idLt x hx
  · refine pairwise_map_of_mem _ _ _ ?_ hI.idNe
    intro x hx y hy hxy
    have px := hpres x hx
    have py := hpres y hy
    unfold IdDistinct at hxy ⊢
    rw [px.2.2, py.2.2]
    exact hxy
  · intro z hz
    rcases List.mem_map.mp hz with ⟨x, hx, rfl⟩
    unfold updById
    by_cases h : (x.id == r.id) = true
    · simp [h, attendReg]
    · simp [h]
      exact hI.scanIff x hx
  · intro eid ev c hgv hcv hpos
    have hcnt : countForL (σ.regs.map (updById r.id (attendReg r n))) eid
        = countForL σ.regs eid :=
      countForL_map_eq _ _ (fun x hx => (hpres x hx).2.1) eid
    simp only [countFor] at *
    rw [hcnt]
    exact hI.capOk eid ev c hgv hcv hpos
  · intro z hz
    rcases List.mem_map.mp hz with ⟨x, hx, rfl⟩
    have px := hpres x hx
    rw [px.2.1]
    exact hI.evEx x hx

/-- Every register/cancel/scan operation preserves the invariant. -/
lemma inv_step {σ σ2 : St} (hI : Inv σ) (hs : Step σ σ2) : Inv σ2 := by
  cases hs with
  | registerE u e d n =>
    rcases registerExpress_spec σ u e d n with ⟨h, _⟩ | ⟨h, _⟩ | ⟨h, _⟩ |
      ⟨hf, ev, hev, hc, h⟩
    · rw [h]; exact hI
    · rw [h]; exact hI
    · rw [h]; exact hI
    · rw [h]
      exact inv_create σ u e n (mintExpress u e n) d σ.notifs hI hf (by simp [hev])
        (fun ev2 c hg2 hcv hpos => by
          rw [hev] at hg2
          cases hg2
          exact capFull_false_lt _ _ hc c hcv hpos)
  | registerH u e d n =>
    rcases registerHandler_spec σ u e d n with ⟨h, _⟩ | ⟨h, _⟩ | ⟨h, _⟩ |
      ⟨hf, ev, hev, hc, h⟩
    · rw [h]; exact hI
    · rw [h]; exact hI
    · rw [h]; exact hI
    · rw [h]
      exact inv_create σ u e n (mintHandler u e n) d _ hI hf (by simp [hev])
        (fun ev2 c hg2 hcv hpos => by
          rw [hev] at hg2
          cases hg2
          exact capFull_false_lt _ _ hc c hcv hpos)
  | cancelE rid u =>
    rcases cancelExpress_spec σ rid u with ⟨h, _⟩ | ⟨r, hf, h⟩
    · rw [h]; exact hI
    · rw [h]; exact inv_filter σ hI _
  | cancelH rid u adm =>
    rcases cancelHandler_spec σ rid u adm with ⟨h, _⟩ | ⟨r, _, _, h⟩ | ⟨r, _, _, h⟩
    · rw [h]; exact hI
    · rw [h]; exact hI
    · rw [h]; exact inv_filter σ hI _
  | scanE q n =>
    rcases scanExpress_spec σ q n with ⟨_, h⟩ | ⟨p, _, _, h⟩ | ⟨p, r, _, _, _, h⟩ |
      ⟨p, r, _, hf, _, h⟩
    · rw [h]; exact hI
    · rw [h]; exact hI
    · rw [h]; exact hI
    · rw [h]
      exact inv_scanUpdate σ hI r n (List.mem_of_find?_eq_some hf)
  | scanH q n =>
    rcases scanExpress_spec σ q n with ⟨_, h⟩ | ⟨p, _, _, h⟩ | ⟨p, r, _, _, _, h⟩ |
      ⟨p, r, _, hf, _, h⟩
    · rw [← scan_eq, h]; exact hI
    · rw [← scan_eq, h]; exact hI
    · rw [← scan_eq, h]; exact hI
    · rw [← scan_eq, h]
      exact inv_scanUpdate σ hI r n (List.mem_of_find?_eq_some hf)

/-- Every reachable state satisfies the invariant. -/
lemma reachable_inv {events : List Event} {σ : St} (h : Reachable events σ) : Inv σ := by
  induction h with
  | init => exact inv_init _
  | step _ hs ih => exact inv_step ih hs

/-- After the scan transition rewrites the matched row, the same
(userId, eventId) query returns the rewritten row. -/
lemma findReg_after_update (regs : List Registration) (r r2 : Registration) (u e : String)
    (hr : findReg regs u e = some r)
    (hm : (r2.userId == u && r2.eventId == e) = true) :
    findReg (regs.map (updById r.id r2)) u e = some r2 := by
  unfold findReg at *
  induction regs with
  | nil => simp at hr
  | cons a t ih =>
    by_cases hpa : (a.userId == u && a.eventId == e) = true
    · rw [List.find?_cons_of_pos (p := fun x : Registration => x.userId == u && x.eventId == e) t hpa] at hr
      injection hr with hr
      subst hr
      have hup : updById a.id r2 a = r2 := by simp [updById]
      simp only [List.map_cons, hup]
      exact List.find?_cons_of_pos (p := fun x : Registration => x.userId == u && x.eventId == e) _ hm
    · rw [List.find?_cons_of_neg (p := fun x : Registration => x.userId == u && x.eventId == e) t hpa] at hr
      have ih2 := ih hr
      simp only [List.map_cons]
      by_cases hid : (a.id == r.id) = true
      · have hup : updById r.id r2 a = r2 := by
          simp only [updById]
          simp [hid]
        rw [hup]
        exact List.find?_cons_of_pos (p := fun x : Registration => x.userId == u && x.eventId == e) _ hm
      · have hup : updById r.id r2 a = a := by
          simp only [updById]
          simp [hid]
        rw [hup, List.find?_cons_of_neg (p := fun x : Registration => x.userId == u && x.eventId == e) _ hpa]
        exact ih2

/-! ## Concrete scenarios used to instantiate the theorems -/

/-- One event with capacity 2. -/
def evts1 : List Event := [{ id := "e1", title := "Tech Summit", capacity := some 2 }]

/-- One event with an explicit capacity of 0. -/
def evts0 : List Event := [{ id := "e0", title := "Workshop", capacity := some 0 }]

/-- One event with capacity 1. -/
def evtsC : List Event := [{ id := "e2", title := "Seminar", capacity := some 1 }]

/-- State after user u1 registers for e1 through the Express route. -/
def st1 : St := (registerExpress (initSt evts1) "u1" "e1" none 5).2

/-- State after user u1 registers for the capacity-0 event e0. -/
def st0 : St := (registerExpress (initSt evts0) "u1" "e0" none 3).2

/-- State after user u1 registers for the capacity-1 event e2. -/
def stC : St := (registerExpress (initSt evtsC) "u1" "e2" none 4).2

/-! ## Claims -/

/-- C1: at most one Registration exists per (user, event) pair in any state
reachable by register/cancel/scan operations, and when such a Registration
exists, registration creation through either backend rejects with
AlreadyRegistered and changes nothing. -/
theorem c1_registration_uniqueness (events : List Event) (σ : St)
    (h : Reachable events σ) (uid eid : String) (d : Option AdditionalDetails) (now : Nat) :
    (σ.regs.filter (fun r => r.userId == uid && r.eventId == eid)).length ≤ 1 ∧
    ((∃ r ∈ σ.regs, r.userId = uid ∧ r.eventId = eid) →
      registerExpress σ uid eid d now = (RegisterResult.alreadyRegistered, σ) ∧
      registerHandler σ uid eid d now = (RegisterResult.alreadyRegistered, σ)) := by
  have hI := reachable_inv h
  constructor
  · refine length_filter_le_one_of_pairwise _ hI.uniq ?_
    intro a b hpa hpb
    simp only [Bool.and_eq_true, beq_iff_eq] at hpa hpb
    intro hcon
    exact hcon ⟨hpa.1.trans hpb.1.symm, hpa.2.trans hpb.2.symm⟩
  · rintro ⟨r, hr, hu, he⟩
    have hfind : ∃ r2, findReg σ.regs uid eid = some r2 := by
      cases hfe : findReg σ.regs uid eid with
      | some r2 => exact ⟨r2, rfl⟩
      | none =>
        exact absurd ⟨hu, he⟩ ((findReg_none_iff σ.regs uid eid).mp hfe r hr)
    obtain ⟨r2, hr2⟩ := hfind
    exact ⟨by simp [registerExpress, hr2], by simp [registerHandler, hr2]⟩

/-- C1 witness: instantiated at the one-registration state st1. -/
theorem c1_witness :
    (st1.regs.filter (fun r => r.userId == "u1" && r.eventId == "e1")).length ≤ 1 ∧
    ((∃ r ∈ st1.regs, r.userId = "u1" ∧ r.eventId = "e1") →
      registerExpress st1 "u1" "e1" none 7 = (RegisterResult.alreadyRegistered, st1) ∧
      registerHandler st1 "u1" "e1" none 7 = (RegisterResult.alreadyRegistered, st1)) :=
  c1_registration_uniqueness evts1 st1
    (Reachable.step Reachable.init (Step.registerE (initSt evts1) "u1" "e1" none 5))
    "u1" "e1" none 7

/-- C2 counterexample: e0 has a present, finite capacity of 0, the
registration count (0) is at or above it, yet register does not reject
with CapacityExceeded: it creates a registration, and the reachable
successor state carries 1 > 0 registrations for e0. -/
theorem c2_counterexample :
    Reachable evts0 st0 ∧
    getEvent st0 "e0" = some { id := "e0", title := "Workshop", capacity := some 0 } ∧
    (registerExpress (initSt evts0) "u1" "e0" none 3).1 ≠ RegisterResult.capacityExceeded ∧
    countFor st0 "e0" = 1 :=
  ⟨Reachable.step Reachable.init (Step.registerE (initSt evts0) "u1" "e0" none 3),
   by decide, by decide, by decide⟩

/-- C2 (amended): for every event with a present nonzero capacity C, the
registration count in any reachable state is at most C, and a register
call by a not-yet-registered user finding the count at or above C rejects
with CapacityExceeded through either backend, creating nothing; an event
whose stored capacity is 0 is exempt because the JS truthiness guard skips
the check. -/
theorem c2_capacity_amended (events : List Event) (σ : St) (h : Reachable events σ)
    (eid : String) (ev : Event) (c : Nat) (hev : getEvent σ eid = some ev)
    (hcap : ev.capacity = some c) (hpos : 0 < c) :
    countFor σ eid ≤ c ∧
    (∀ uid d now, findReg σ.regs uid eid = none → countFor σ eid ≥ c →
      registerExpress σ uid eid d now = (RegisterResult.capacityExceeded, σ) ∧
      registerHandler σ uid eid d now = (RegisterResult.capacityExceeded, σ)) := by
  have hI := reachable_inv h
  refine ⟨hI.capOk eid ev c hev hcap hpos, ?_⟩
  intro uid d now hf hge
  have hcf : capFull ev.capacity (countFor σ eid) = true := by
    rw [hcap]
    simp [capFull, Nat.pos_iff_ne_zero.mp hpos]
    exact hge
  exact ⟨by simp [registerExpress, hf, hev, hcf], by simp [registerHandler, hf, hev, hcf]⟩

/-- C2 witness: the capacity-1 event e2 at the one-registration state stC. -/
theorem c2_witness :
    countFor stC "e2" ≤ 1 ∧
    (∀ uid d now, findReg stC.regs uid "e2" = none → countFor stC "e2" ≥ 1 →
      registerExpress stC uid "e2" d now = (RegisterResult.capacityExceeded, stC) ∧
      registerHandler stC uid "e2" d now = (RegisterResult.capacityExceeded, stC)) :=
  c2_capacity_amended evtsC stC
    (Reachable.step Reachable.init (Step.registerE (initSt evtsC) "u1" "e2" none 4))
    "e2" { id := "e2", title := "Seminar", capacity := some 1 } 1
    (by decide) (by decide) (by decide)

/-- C3: in every reachable state scannedAt is set iff the status is
attended; a freshly created Registration is pending with no scannedAt; and
no register/cancel/scan step ever moves a registration's status back from
attended (tracked by document id across the step). -/
theorem c3_status_transitions (events : List Event) (σ : St) (h : Reachable events σ) :
    (∀ r ∈ σ.regs, r.scannedAt.isSome = true ↔ r.status = RegStatus.attended) ∧
    (∀ uid eid d now r σ2,
      (registerExpress σ uid eid d now = (RegisterResult.created r, σ2) ∨
       registerHandler σ uid eid d now = (RegisterResult.created r, σ2)) →
      r.status = RegStatus.pending ∧ r.scannedAt = none) ∧
    (∀ σ2, Step σ σ2 → ∀ r ∈ σ.regs, r.status = RegStatus.attended →
      ∀ r2 ∈ σ2.regs, r2.id = r.id → r2.status = RegStatus.attended) := by
  have hI := reachable_inv h
  refine ⟨hI.scanIff, ?_, ?_⟩
  · intro uid eid d now r σ2 hcr
    rcases hcr with hcr | hcr
    · rcases registerExpress_spec σ uid eid d now with ⟨h2, _⟩ | ⟨h2, _⟩ | ⟨h2, _⟩ |
        ⟨_, ev, _, _, h2⟩ <;> rw [h2] at hcr
      · simp at hcr
      · simp at hcr
      · simp at hcr
      · simp only [Prod.mk.injEq, RegisterResult.created.injEq] at hcr
        rw [← hcr.1]
        simp [mkRegistration]
    · rcases registerHandler_spec σ uid eid d now with ⟨h2, _⟩ | ⟨h2, _⟩ | ⟨h2, _⟩ |
        ⟨_, ev, _, _, h2⟩ <;> rw [h2] at hcr
      · simp at hcr
      · simp at hcr
      · simp at hcr
      · simp only [Prod.mk.injEq, RegisterResult.created.injEq] at hcr
        rw [← hcr.1]
        simp [mkRegistration]
  · intro σ2 hs r hr hatt r2 hr2 hid
    cases hs with
    | registerE uid eid d now =>
      rcases registerExpress_spec σ uid eid d now with ⟨h2, _⟩ | ⟨h2, _⟩ | ⟨h2, _⟩ |
        ⟨_, ev, _, _, h2⟩ <;> rw [h2] at hr2
      · rw [eq_of_pairwise_id σ.regs hI.idNe r2 r hr2 hr hid]; exact hatt
      · rw [eq_of_pairwise_id σ.regs hI.idNe r2 r hr2 hr hid]; exact hatt
      · rw [eq_of_pairwise_id σ.regs hI.idNe r2 r hr2 hr hid]; exact hatt
      · rcases List.mem_append.mp hr2 with hm | hm
        · rw [eq_of_pairwise_id σ.regs hI.idNe r2 r hm hr hid]; exact hatt
        · rcases List.mem_singleton.mp hm with rfl
          have hlt := hI.idLt r hr
          rw [← hid] at hlt
          simp [mkRegistration] at hlt
    | registerH uid eid d now =>
      rcases registerHandler_spec σ uid eid d now with ⟨h2, _⟩ | ⟨h2, _⟩ | ⟨h2, _⟩ |
        ⟨_, ev, _, _, h2⟩ <;> rw [h2] at hr2
      · rw [eq_of_pairwise_id σ.regs hI.idNe r2 r hr2 hr hid]; exact hatt
      · rw [eq_of_pairwise_id σ.regs hI.idNe r2 r hr2 hr hid]; exact hatt
      · rw [eq_of_pairwise_id σ.regs hI.idNe r2 r hr2 hr hid]; exact hatt
      · rcases List.mem_append.mp hr2 with hm | hm
        · rw [eq_of_pairwise_id σ.regs hI.idNe r2 r hm hr hid]; exact hatt
        · rcases List.mem_singleton.mp hm with rfl
          have hlt := hI.idLt r hr
          rw [← hid] at hlt
          simp [mkRegistration] at hlt
    | cancelE rid u =>
      rcases cancelExpress_spec σ rid u with ⟨h2, _⟩ | ⟨rr, hf, h2⟩ <;> rw [h2] at hr2
      · rw [eq_of_pairwise_id σ.regs hI.idNe r2 r hr2 hr hid]; exact hatt
      · rw [eq_of_pairwise_id σ.regs hI.idNe r2 r (List.mem_of_mem_filter hr2) hr hid]
        exact hatt
    | cancelH rid u adm =>
      rcases cancelHandler_spec σ rid u adm with ⟨h2, _⟩ | ⟨rr, _, _, h2⟩ |
        ⟨rr, _, _, h2⟩ <;> rw [h2] at hr2
      · rw [eq_of_pairwise_id σ.regs hI.idNe r2 r hr2 hr hid]; exact hatt
      · rw [eq_of_pairwise_id σ.regs hI.idNe r2 r hr2 hr hid]; exact hatt
      · rw [eq_of_pairwise_id σ.regs hI.idNe r2 r (List.mem_of_mem_filter hr2) hr hid]
        exact hatt
    | scanE q now =>
      rcases scanExpress_spec σ q now with ⟨_, h2⟩ | ⟨p, _, _, h2⟩ | ⟨p, rr, _, _, _, h2⟩ |
        ⟨p, rr, _, hf, hpend, h2⟩ <;> rw [h2] at hr2
      · rw [eq_of_pairwise_id σ.regs hI.idNe r2 r hr2 hr hid]; exact hatt
      · rw [eq_of_pairwise_id σ.regs hI.idNe r2 r hr2 hr hid]; exact hatt
      · rw [eq_of_pairwise_id σ.regs hI.idNe r2 r hr2 hr hid]; exact hatt
      · rcases List.mem_map.mp hr2 with ⟨x, hx, rfl⟩
        by_cases hxx : (x.id == rr.id) = true
        · simp [updById, hxx, attendReg]
        · have hxid : x.id = r.id := by
            simpa [updById, hxx] using hid
          rw [show updById rr.id (attendReg rr now) x = x by simp [updById, hxx]]
          rw [eq_of_pairwise_id σ.regs hI.idNe x r hx hr hxid]
          exact hatt
    | scanH q now =>
      rcases scanExpress_spec σ q now with ⟨_, h2⟩ | ⟨p, _, _, h2⟩ | ⟨p, rr, _, _, _, h2⟩ |
        ⟨p, rr, _, hf, hpend, h2⟩ <;> rw [← scan_eq, h2] at hr2
      · rw [eq_of_pairwise_id σ.regs hI.idNe r2 r hr2 hr hid]; exact hatt
      · rw [eq_of_pairwise_id σ.regs hI.idNe r2 r hr2 hr hid]; exact hatt
      · rw [eq_of_pairwise_id σ.regs hI.idNe r2 r hr2 hr hid]; exact hatt
      · rcases List.mem_map.mp hr2 with ⟨x, hx, rfl⟩
        by_cases hxx : (x.id == rr.id) = true
        · simp [updById, hxx, attendReg]
        · have hxid : x.id = r.id := by
            simpa [updById, hxx] using hid
          rw [show updById rr.id (attendReg rr now) x = x by simp [updById, hxx]]
          rw [eq_of_pairwise_id σ.regs hI.idNe x r hx hr hxid]
          exact hatt

/-- C3 witness: instantiated at the one-registration state st1. -/
theorem c3_witness :
    (∀ r ∈ st1.regs, r.scannedAt.isSome = true ↔ r.status = RegStatus.attended) ∧
    (∀ uid eid d now r σ2,
      (registerExpress st1 uid eid d now = (RegisterResult.created r, σ2) ∨
       registerHandler st1 uid eid d now = (RegisterResult.created r, σ2)) →
      r.status = RegStatus.pending ∧ r.scannedAt = none) ∧
    (∀ σ2, Step st1 σ2 → ∀ r ∈ st1.regs, r.status = RegStatus.attended →
      ∀ r2 ∈ σ2.regs, r2.id = r.id → r2.status = RegStatus.attended) :=
  c3_status_transitions evts1 st1
    (Reachable.step Reachable.init (Step.registerE (initSt evts1) "u1" "e1" none 5))

/-- C4: scanning a valid token of a pending registration grants entry and
stamps the attended status and scannedAt; a second scan of the same token
returns AlreadyScanned together with the (now attended) registration and
changes nothing; a third scan behaves exactly like the second. -/
theorem c4_scan_idempotent (σ : St) (tok : String) (p : QrPayload) (r : Registration)
    (n1 n2 n3 : Nat) (hdec : qrDecode tok = some p)
    (hfind : findReg σ.regs p.uid p.eid = some r)
    (hpend : r.status = RegStatus.pending) :
    scanExpress σ tok n1 = (ScanResult.granted (attendReg r n1),
      { σ with regs := σ.regs.map (updById r.id (attendReg r n1)) }) ∧
    scanExpress (scanExpress σ tok n1).2 tok n2 =
      (ScanResult.alreadyScanned (attendReg r n1), (scanExpress σ tok n1).2) ∧
    scanExpress (scanExpress σ tok n1).2 tok n3 =
      (ScanResult.alreadyScanned (attendReg r n1), (scanExpress σ tok n1).2) := by
  have hmatch : ((attendReg r n1).userId == p.uid && (attendReg r n1).eventId == p.eid)
      = true := by
    have := List.find?_some hfind
    simpa [attendReg] using this
  have h1 : scanExpress σ tok n1 = (ScanResult.granted (attendReg r n1),
      { σ with regs := σ.regs.map (updById r.id (attendReg r n1)) }) := by
    simp [scanExpress, hdec, hfind, hpend]
  have hfind2 : findReg ((scanExpress σ tok n1).2).regs p.uid p.eid
      = some (attendReg r n1) := by
    rw [h1]
    exact findReg_after_update σ.regs r (attendReg r n1) p.uid p.eid hfind hmatch
  have hscan2 : ∀ (σ2 : St) (m : Nat),
      findReg σ2.regs p.uid p.eid = some (attendReg r n1) →
      scanExpress σ2 tok m = (ScanResult.alreadyScanned (attendReg r n1), σ2) := by
    intro σ2 m hf2
    simp [scanExpress, hdec, hf2, attendReg]
  exact ⟨h1, hscan2 _ n2 hfind2, hscan2 _ n3 hfind2⟩

/-- C4 witness: u1's minted token at the one-registration state st1. -/
theorem c4_witness :
    scanExpress st1 (mintExpress "u1" "e1" 5) 8 =
      (ScanResult.granted
        (attendReg (mkRegistration 0 "u1" "e1" 5 (mintExpress "u1" "e1" 5) none) 8),
       { st1 with regs := st1.regs.map (updById
          (mkRegistration 0 "u1" "e1" 5 (mintExpress "u1" "e1" 5) none).id
          (attendReg (mkRegistration 0 "u1" "e1" 5 (mintExpress "u1" "e1" 5) none) 8)) }) ∧
    scanExpress (scanExpress st1 (mintExpress "u1" "e1" 5) 8).2 (mintExpress "u1" "e1" 5) 9 =
      (ScanResult.alreadyScanned
        (attendReg (mkRegistration 0 "u1" "e1" 5 (mintExpress "u1" "e1" 5) none) 8),
       (scanExpress st1 (mintExpress "u1" "e1" 5) 8).2) ∧
    scanExpress (scanExpress st1 (mintExpress "u1" "e1" 5) 8).2 (mintExpress "u1" "e1" 5) 10 =
      (ScanResult.alreadyScanned
        (attendReg (mkRegistration 0 "u1" "e1" 5 (mintExpress "u1" "e1" 5) none) 8),
       (scanExpress st1 (mintExpress "u1" "e1" 5) 8).2) :=
  c4_scan_idempotent st1 (mintExpress "u1" "e1" 5) ⟨"u1", "e1"⟩
    (mkRegistration 0 "u1" "e1" 5 (mintExpress "u1" "e1" 5) none) 8 9 10
    (by decide) (by decide) (by decide)

/-- Accept/reject outcome class of a register call, forgetting the created
document. -/
inductive RegOutcome where
  | ok
  | dup
  | noEvent
  | full
deriving DecidableEq, Repr

/-- Classify a register result by its outcome. -/
def regOutcome : RegisterResult → RegOutcome
  | RegisterResult.created _ => RegOutcome.ok
  | RegisterResult.alreadyRegistered => RegOutcome.dup
  | RegisterResult.eventNotFound => RegOutcome.noEvent
  | RegisterResult.capacityExceeded => RegOutcome.full

/-- A registration with its credential string erased, for comparing the two
backends' created documents up to the minted token. -/
def stripQr (r : Registration) : Registration := { r with qrCodeData := "" }

/-- A registration owned by u1 used as cancellation target. -/
def regOwned : Registration := mkRegistration 0 "u1" "e1" 5 (mintExpress "u1" "e1" 5) none

/-- A one-registration state whose registration belongs to u1. -/
def stCex : St := { events := evts1, regs := [regOwned], notifs := [], nextId := 1 }

/-- C6 counterexample: the same cancel request — an administrator (not the
owner) cancelling u1's registration — is rejected NotFound with no state
change by the Express route but accepted (and the registration deleted) by
the serverless handler, so the two backends do not implement the same
behaviour. -/
theorem c6_counterexample :
    (cancelExpress stCex 0 "admin1").1 = CancelResult.notFound ∧
    (cancelExpress stCex 0 "admin1").2 = stCex ∧
    (cancelHandler stCex 0 "admin1" true).1 = CancelResult.ok ∧
    (cancelHandler stCex 0 "admin1" true).2.regs = [] := by
  refine ⟨by decide, by decide, by decide, by decide⟩

/-- C6 (amended): the backends agree on scan (identical function) and on
register (same accept/reject outcome, same created registration up to the
credential string; the handler additionally appends a notification), but
cancel drifts: the Express route succeeds exactly when the requester owns
the registration (a non-owner admin falls to NotFound), while the handler
succeeds exactly when the registration exists and the requester is the
owner or an admin. -/
theorem c6_backend_agreement_amended :
    (∀ (σ : St) (q : String) (n : Nat), scanExpress σ q n = scanHandler σ q n) ∧
    (∀ (σ : St) (u e : String) (d : Option AdditionalDetails) (now : Nat),
      regOutcome (registerExpress σ u e d now).1
        = regOutcome (registerHandler σ u e d now).1 ∧
      (registerExpress σ u e d now).2.regs.map stripQr
        = (registerHandler σ u e d now).2.regs.map stripQr ∧
      (registerExpress σ u e d now).2.nextId = (registerHandler σ u e d now).2.nextId) ∧
    (∀ (σ : St) (rid : Nat) (u : String) (adm : Bool),
      ((cancelExpress σ rid u).1 = CancelResult.ok ↔
        (σ.regs.find? (fun x => x.id == rid && x.userId == u)).isSome = true) ∧
      ((cancelHandler σ rid u adm).1 = CancelResult.ok ↔
        ∃ r, σ.regs.find? (fun x => x.id == rid) = some r ∧
          (r.userId = u ∨ adm = true))) := by
  refine ⟨fun σ q n => rfl, ?_, ?_⟩
  · intro σ u e d now
    unfold registerExpress registerHandler
    cases hf : findReg σ.regs u e with
    | some r => exact ⟨rfl, rfl, rfl⟩
    | none =>
      cases he : getEvent σ e with
      | none => exact ⟨rfl, rfl, rfl⟩
      | some ev =>
        by_cases hc : capFull ev.capacity (countFor σ e) = true
        · simp only [hc, if_true]
          exact ⟨trivial, trivial, trivial⟩
        · have hcf : capFull ev.capacity (countFor σ e) = false := by
            simpa using hc
          simp only [hcf, Bool.false_eq_true, if_false]
          refine ⟨rfl, ?_, trivial⟩
          simp [stripQr, mkRegistration]
  · intro σ rid u adm
    constructor
    · rcases cancelExpress_spec σ rid u with ⟨h, hn⟩ | ⟨r, hf, h⟩
      · rw [h]
        simp [hn]
      · rw [h]
        simp [hf]
    · rcases cancelHandler_spec σ rid u adm with ⟨h, hn⟩ | ⟨r, hf, ha, h⟩ | ⟨r, hf, ha, h⟩
      · rw [h]
        simp [hn]
      · rw [h]
        have hna := ha
        simp only [Bool.and_eq_true, bne_iff_ne, Bool.not_eq_true', ne_eq] at hna
        simp [hf, hna.1, hna.2]
      · rw [h]
        simp [hf]
        exact ha

/-- A registration owned by alice used as cancellation target. -/
def regAlice : Registration := mkRegistration 0 "alice" "e1" 6 (mintExpress "alice" "e1" 6) none

/-- A one-registration state whose registration belongs to alice. -/
def stCex7 : St := { events := evts1, regs := [regAlice], notifs := [], nextId := 1 }

/-- C7 counterexample: through the Express route, a requester other than
the owner — in particular one holding administrative capability, which the
route never consults — is rejected with NotFound rather than succeeding,
refuting the claim that cancellation succeeds whenever the requester is
the owner or holds administrative capability. -/
theorem c7_counterexample :
    (cancelExpress stCex7 0 "bob").1 = CancelResult.notFound ∧
    (cancelExpress stCex7 0 "bob").2 = stCex7 ∧
    (cancelHandler stCex7 0 "bob" true).1 = CancelResult.ok := by
  refine ⟨by decide, by decide, by decide⟩

/-- C7 (amended): through the serverless handler, cancelling an existing
registration succeeds (deleting it) iff the requester is the owning user
or an admin, and is rejected NotAuthorized with no state change otherwise;
through the Express route it succeeds iff the requester is the owning user
— any other requester, admins included, gets NotFound with no state
change. -/
theorem c7_cancel_authorization_amended (σ : St) (rid : Nat) (u : String) (adm : Bool)
    (r : Registration) (hfH : σ.regs.find? (fun x => x.id == rid) = some r) :
    ((r.userId = u ∨ adm = true) →
      cancelHandler σ rid u adm =
        (CancelResult.ok, { σ with regs := σ.regs.filter (fun x => x.id != rid) })) ∧
    (¬(r.userId = u) → adm = false →
      cancelHandler σ rid u adm = (CancelResult.notAuthorized, σ)) ∧
    (∀ r2, σ.regs.find? (fun x => x.id == rid && x.userId == u) = some r2 →
      cancelExpress σ rid u =
        (CancelResult.ok, { σ with regs := σ.regs.filter (fun x => x.id != rid) })) ∧
    (σ.regs.find? (fun x => x.id == rid && x.userId == u) = none →
      cancelExpress σ rid u = (CancelResult.notFound, σ)) := by
  refine ⟨?_, ?_, ?_, ?_⟩
  · intro hauth
    have hguard : (r.userId != u && !adm) = false := by
      rcases hauth with h | h
      · simp [h]
      · simp [h]
    simp [cancelHandler, hfH, hguard]
  · intro hne hadm
    have hguard : (r.userId != u && !adm) = true := by
      simp [bne_iff_ne, hne, hadm]
    simp [cancelHandler, hfH, hguard]
  · intro r2 hfE
    simp [cancelExpress, hfE]
  · intro hfE
    simp [cancelExpress, hfE]

/-- C7 witness: alice's registration; owner and admin succeed via the
handler, a stranger is refused, and the Express route mirrors the
owner-only rule. -/
theorem c7_witness :
    (((regAlice.userId = "alice" ∨ false = true) →
      cancelHandler stCex7 0 "alice" false =
        (CancelResult.ok, { stCex7 with regs := stCex7.regs.filter (fun x => x.id != 0) })) ∧
    (¬(regAlice.userId = "alice") → false = false →
      cancelHandler stCex7 0 "alice" false = (CancelResult.notAuthorized, stCex7)) ∧
    (∀ r2, stCex7.regs.find? (fun x => x.id == 0 && x.userId == "alice") = some r2 →
      cancelExpress stCex7 0 "alice" =
        (CancelResult.ok, { stCex7 with regs := stCex7.regs.filter (fun x => x.id != 0) })) ∧
    (stCex7.regs.find? (fun x => x.id == 0 && x.userId == "alice") = none →
      cancelExpress stCex7 0 "alice" = (CancelResult.notFound, stCex7))) :=
  c7_cancel_authorization_amended stCex7 0 "alice" false regAlice (by decide)

/-- C8: registering for an event that does not exist is rejected with the
404 EventNotFound outcome by both backends, creating no registration and
leaving the state unchanged (in reachable states no registration row can
reference an absent event, so the duplicate pre-check cannot fire
instead). -/
theorem c8_event_not_found (events : List Event) (σ : St) (h : Reachable events σ)
    (uid eid : String) (d : Option AdditionalDetails) (now : Nat)
    (hev : getEvent σ eid = none) :
    registerExpress σ uid eid d now = (RegisterResult.eventNotFound, σ) ∧
    registerHandler σ uid eid d now = (RegisterResult.eventNotFound, σ) := by
  have hI := reachable_inv h
  have hf : findReg σ.regs uid eid = none := by
    rw [findReg_none_iff]
    intro r hr hcon
    have hex := hI.evEx r hr
    rw [hcon.2, hev] at hex
    simp at hex
  exact ⟨by simp [registerExpress, hf, hev], by simp [registerHandler, hf, hev]⟩

/-- C8 witness: registering for the unknown event e9 at state st1. -/
theorem c8_witness :
    registerExpress st1 "u2" "e9" none 11 = (RegisterResult.eventNotFound, st1) ∧
    registerHandler st1 "u2" "e9" none 11 = (RegisterResult.eventNotFound, st1) :=
  c8_event_not_found evts1 st1
    (Reachable.step Reachable.init (Step.registerE (initSt evts1) "u1" "e1" none 5))
    "u2" "e9" none 11 (by decide)

/-- C9: an attended registration can be cancelled exactly like a pending
one — neither backend consults the status — deleting it and strictly
decreasing the event's registration count, so a capacity slot is freed. -/
theorem c9_cancel_attended (σ : St) (rid : Nat) (u : String) (adm : Bool)
    (r : Registration)
    (hfE : σ.regs.find? (fun x => x.id == rid && x.userId == u) = some r)
    (hfH : σ.regs.find? (fun x => x.id == rid) = some r)
    (hatt : r.status = RegStatus.attended) :
    cancelExpress σ rid u =
      (CancelResult.ok, { σ with regs := σ.regs.filter (fun x => x.id != rid) }) ∧
    cancelHandler σ rid u adm =
      (CancelResult.ok, { σ with regs := σ.regs.filter (fun x => x.id != rid) }) ∧
    countFor (cancelExpress σ rid u).2 r.eventId < countFor σ r.eventId := by
  have hprops := List.find?_some hfE
  simp only [Bool.and_eq_true, beq_iff_eq] at hprops
  have hguard : (r.userId != u && !adm) = false := by
    simp [hprops.2]
  have h1 : cancelExpress σ rid u =
      (CancelResult.ok, { σ with regs := σ.regs.filter (fun x => x.id != rid) }) := by
    simp [cancelExpress, hfE]
  refine ⟨h1, by simp [cancelHandler, hfH, hguard], ?_⟩
  rw [h1]
  exact countForL_remove_lt σ.regs r (List.mem_of_find?_eq_some hfE) rid hprops.1
    r.eventId rfl

/-- An attended registration of u1 for e1. -/
def regDone : Registration :=
  { id := 0, userId := "u1", eventId := "e1", status := RegStatus.attended,
    registeredAt := 5, scannedAt := some 6, qrCodeData := mintExpress "u1" "e1" 5,
    additionalDetails := none }

/-- A state holding one attended registration. -/
def stAtt : St := { events := evts1, regs := [regDone], notifs := [], nextId := 1 }

/-- C9 witness: u1 cancels the attended registration through both
backends. -/
theorem c9_witness :
    cancelExpress stAtt 0 "u1" =
      (CancelResult.ok, { stAtt with regs := stAtt.regs.filter (fun x => x.id != 0) }) ∧
    cancelHandler stAtt 0 "u1" false =
      (CancelResult.ok, { stAtt with regs := stAtt.regs.filter (fun x => x.id != 0) }) ∧
    countFor (cancelExpress stAtt 0 "u1").2 regDone.eventId < countFor stAtt regDone.eventId :=
  c9_cancel_attended stAtt 0 "u1" false regDone (by decide) (by decide) (by decide)

/-- C10: an event whose stored capacity is 0 is never the source of a
CapacityExceeded rejection — the truthiness guard skips the count check —
and any user not already registered for it registers successfully through
either backend, so arbitrarily many distinct users can register. -/
theorem c10_capacity_zero_unbounded (σ : St) (uid eid : String)
    (d : Option AdditionalDetails) (now : Nat) (ev : Event)
    (hev : getEvent σ eid = some ev) (hcap : ev.capacity = some 0) :
    (registerExpress σ uid eid d now).1 ≠ RegisterResult.capacityExceeded ∧
    (registerHandler σ uid eid d now).1 ≠ RegisterResult.capacityExceeded ∧
    (findReg σ.regs uid eid = none →
      (registerExpress σ uid eid d now).1 =
        RegisterResult.created (mkRegistration σ.nextId uid eid now (mintExpress uid eid now) d) ∧
      (registerHandler σ uid eid d now).1 =
        RegisterResult.created (mkRegistration σ.nextId uid eid now (mintHandler uid eid now) d)) := by
  have hcf : capFull ev.capacity (countFor σ eid) = false := by
    simp [hcap, capFull]
  refine ⟨?_, ?_, ?_⟩
  · cases hf : findReg σ.regs uid eid with
    | some r => simp [registerExpress, hf]
    | none => simp [registerExpress, hf, hev, hcf]
  · cases hf : findReg σ.regs uid eid with
    | some r => simp [registerHandler, hf]
    | none => simp [registerHandler, hf, hev, hcf]
  · intro hf
    exact ⟨by simp [registerExpress, hf, hev, hcf],
           by simp [registerHandler, hf, hev, hcf]⟩

/-- C10 witness: at st0 the capacity-0 event e0 already has one
registration, yet a second distinct user registers successfully and no
CapacityExceeded is possible. -/
theorem c10_witness :
    (registerExpress st0 "u2" "e0" none 12).1 ≠ RegisterResult.capacityExceeded ∧
    (registerHandler st0 "u2" "e0" none 12).1 ≠ RegisterResult.capacityExceeded ∧
    (findReg st0.regs "u2" "e0" = none →
      (registerExpress st0 "u2" "e0" none 12).1 =
        RegisterResult.created (mkRegistration st0.nextId "u2" "e0" 12 (mintExpress "u2" "e0" 12) none) ∧
      (registerHandler st0 "u2" "e0" none 12).1 =
        RegisterResult.created (mkRegistration st0.nextId "u2" "e0" 12 (mintHandler "u2" "e0" 12) none)) :=
  c10_capacity_zero_unbounded st0 "u2" "e0" none 12
    { id := "e0", title := "Workshop", capacity := some 0 } (by decide) (by decide)

end QRPass
